import Mathlib

/-!
Verification of the acquisition-and-delivery pipeline of a YouTube download
bot (src/bot.py): the expiring file store (`file_storage`, `cleanup_old_files`,
`download_handler`), the size-based delivery routing in
`handle_quality_callback`, the quality-tier format selection, the progress
reporter `update_progress` with its `progress_hook`, and the error dispatch of
the request handler.

Modelling conventions: file-system paths are identified with their basename
inside the storage directory (every stored name carries a fresh UUID prefix,
so basenames identify files); timestamps are integer seconds; percentages are
rationals.  The on-disk state is an explicit list of existing basenames, and
the metadata dictionary `file_storage` is an association list in insertion
order (Python dictionaries iterate in insertion order).
-/

namespace YtdlBot

/-- Constant MAX_FILE_SIZE = 50 * 1024 * 1024 bytes (src/bot.py line 45). -/
def MAX_FILE_SIZE : Nat := 50 * 1024 * 1024

/-- Default SERVER_URL, built from the default host "localhost" and default
port 8080 (src/bot.py lines 52-54). -/
def SERVER_URL : String := "http://localhost:8080"

/-- One value of the metadata dictionary `file_storage`: the keys
path / created_at / downloaded / original_name written at registration
(src/bot.py lines 377-382). -/
structure FileMeta where
  path : String
  createdAt : Int
  downloaded : Bool
  originalName : String
deriving Repr, DecidableEq

/-- The `file_storage` dictionary, keyed by the generated file id. -/
abbrev Storage := List (String × FileMeta)

/-- The set of files currently existing on disk, by basename. -/
abbrev FS := List String

/-- Dictionary lookup, first (and in Python only) binding of the key. -/
def lookupStore : Storage → String → Option FileMeta
  | [], _ => none
  | (k, m) :: rest, fid => if k = fid then some m else lookupStore rest fid

/-- Retention predicate of the sweep (src/bot.py line 106): an entry is
deleted when its age exceeds 24 hours or it was already downloaded. -/
def deletable (now : Int) (m : FileMeta) : Bool :=
  decide (24 * 3600 < now - m.createdAt) || m.downloaded

/-- Effect of `metadata['downloaded'] = True` on the dictionary
(src/bot.py line 138): the binding of the given key gets its downloaded
flag set. -/
def markDownloaded : Storage → String → Storage
  | [], _ => []
  | (k, m) :: rest, fid =>
    if k = fid then (k, { m with downloaded := true }) :: markDownloaded rest fid
    else (k, m) :: markDownloaded rest fid

/-- Effect of `del file_storage[file_id]` (src/bot.py line 134). -/
def removeEntry (st : Storage) (fid : String) : Storage :=
  st.filter (fun e => e.1 != fid)

/-- Responses of the retrieval endpoint: `web.Response(text=..., status=404)`
or `web.FileResponse(path=..., headers=...)` (src/bot.py lines 128-146). -/
inductive HttpResponse where
  | notFound (body : String)
  | fileResponse (path : String) (contentDisposition : String)
deriving Repr, DecidableEq

/-- The Content-Disposition header built at src/bot.py line 144 from
`file_path.name`, the basename of the stored file. -/
def attachmentHeader (basename : String) : String :=
  "attachment; filename=\"" ++ basename ++ "\""

/-- The retrieval endpoint `download_handler` (src/bot.py lines 123-146):
unknown handle gives 404 "File not found or expired"; known handle whose
backing file is missing gives 404 "File not found" and drops the stale
entry; otherwise the entry is marked downloaded and the file is served with
an attachment header naming the stored basename. -/
def download_handler (st : Storage) (fs : FS) (fid : String) :
    HttpResponse × Storage :=
  match lookupStore st fid with
  | none => (.notFound "File not found or expired", st)
  | some metadata =>
    if metadata.path ∈ fs then
      (.fileResponse metadata.path (attachmentHeader metadata.path),
       markDownloaded st fid)
    else
      (.notFound "File not found", removeEntry st fid)

/-- Inner loop of one pass of `cleanup_old_files` (src/bot.py lines 103-111),
inside the try block.  For each entry in dictionary order: if it is deletable
and its file exists, the file is unlinked; `failing` is the set of paths whose
unlink raises (for example a permission error), which aborts the loop with the
disk state reached so far (the failing file itself stays on disk).  The
accumulator collects `to_delete`. -/
def sweepLoop (now : Int) (failing : List String) :
    Storage → FS → List String → Except FS (FS × List String)
  | [], fs, acc => .ok (fs, acc)
  | (fid, m) :: rest, fs, acc =>
    if deletable now m then
      if m.path ∈ fs then
        if m.path ∈ failing then .error fs
        else sweepLoop now failing rest (fs.erase m.path) (acc ++ [fid])
      else sweepLoop now failing rest fs (acc ++ [fid])
    else sweepLoop now failing rest fs acc

/-- One pass of `cleanup_old_files` (src/bot.py lines 99-117): the loop body
runs under a try/except, so when some unlink raises, the exception is caught
after the loop aborted; the `del` loop over `to_delete` then never ran, so the
metadata dictionary is unchanged.  On a clean pass every collected id is
deleted from the dictionary. -/
def cleanupPass (now : Int) (failing : List String) (st : Storage) (fs : FS) :
    Storage × FS :=
  match sweepLoop now failing st fs [] with
  | .ok (fs2, toDelete) => (st.filter (fun e => !(toDelete.contains e.1)), fs2)
  | .error fs2 => (st, fs2)

/-- Ids collected in `to_delete` during a pass with no unlink failures. -/
def sweepIds (now : Int) (st : Storage) : List String :=
  (st.filter (fun e => deletable now e.2)).map Prod.fst

/-- Disk state after a pass with no unlink failures. -/
def sweepFs (now : Int) : Storage → FS → FS
  | [], fs => fs
  | (_, m) :: rest, fs =>
    if deletable now m then
      if m.path ∈ fs then sweepFs now rest (fs.erase m.path)
      else sweepFs now rest fs
    else sweepFs now rest fs

/-- Iterated retrieval: n successive calls of the retrieval endpoint on the
same handle, threading the metadata dictionary (the endpoint never touches
the disk state on the served path). -/
def retrieveN (fs : FS) (fid : String) : Nat → Storage → Storage
  | 0, st => st
  | n + 1, st => retrieveN fs fid n (download_handler st fs fid).2

/-- The three quality tiers offered by the inline keyboard. -/
inductive QualityTier where
  | hd
  | sd
  | audio
deriving Repr, DecidableEq

/-- The `progressive_mp4` fallback chain (src/bot.py lines 271-277), a
yt-dlp format string whose slash-separated alternatives are listed in
preference order. -/
def progressive_mp4 : List String :=
  ["best[ext=mp4][vcodec!=none][acodec!=none][protocol!=m3u8][protocol!=dash]",
   "best[ext=mp4][protocol!=m3u8][protocol!=dash]",
   "bestvideo[ext=mp4]+bestaudio[ext=m4a]",
   "best"]

/-- The `chosen_format` preference list of `handle_quality_callback`
(src/bot.py lines 266-293).  The source computes `ffmpeg_available` at line
267, but the format string itself is built from the tier alone;
`ffmpeg_available` only toggles the post-processing options at lines 311-316. -/
def selectFormats (tier : QualityTier) (ffmpeg_available : Bool) : List String :=
  match tier with
  | .audio => ["bestaudio[ext=m4a]", "bestaudio", "best"]
  | .hd =>
    ["best[ext=mp4][height<=1080]",
     "bestvideo[ext=mp4][height<=1080]+bestaudio[ext=m4a]"] ++ progressive_mp4
  | .sd =>
    ["best[ext=mp4][height<=480]",
     "bestvideo[ext=mp4][height<=480]+bestaudio[ext=m4a]",
     "worst[ext=mp4]", "worst"]

/-- Outcome of the delivery step: an inline audio send, an inline video send
(with `supports_streaming=True`), or the offload message carrying the
retrieval URL for an oversized artifact. -/
inductive DeliveryResult where
  | sentAudio
  | sentVideo (supportsStreaming : Bool)
  | offloaded (url : String) (handle : String)
deriving Repr, DecidableEq

/-- Size-based routing of `handle_quality_callback` (src/bot.py lines
364-449).  An artifact strictly above MAX_FILE_SIZE is copied into storage
under the fresh id `fid` (stored basename `f"{file_id}_{video_file.name}"`),
one metadata entry is appended with downloaded=False, and the handler returns
the URL `f"{SERVER_URL}/download/{file_id}"` without any inline send; an
artifact of at most MAX_FILE_SIZE is sent inline, as audio for the audio tier
and as a streaming video otherwise, and no entry is registered. -/
def deliver (tier : QualityTier) (artifactName : String) (sizeBytes : Nat)
    (fid : String) (now : Int) (st : Storage) : DeliveryResult × Storage :=
  if MAX_FILE_SIZE < sizeBytes then
    let storedName := fid ++ "_" ++ artifactName
    (.offloaded (SERVER_URL ++ "/download/" ++ fid) fid,
     st ++ [(fid, ⟨storedName, now, false, artifactName⟩)])
  else
    match tier with
    | .audio => (.sentAudio, st)
    | _ => (.sentVideo true, st)

/-- Shared progress state `context.user_data['download_progress']`
(src/bot.py lines 228-232): percent starts at 0 and the finished flag marks
the status field having become 'finished'. -/
structure ProgressState where
  percent : ℚ
  finished : Bool
deriving Repr, DecidableEq

/-- Initial progress state (src/bot.py lines 228-232). -/
def initialProgress : ProgressState := ⟨0, false⟩

/-- A yt-dlp progress event as seen by the hook: a downloading sample with
optional total_bytes and total_bytes_estimate keys, or the finished event. -/
inductive HookEvent where
  | downloading (downloadedBytes : ℚ) (totalBytes : Option ℚ)
      (totalBytesEstimate : Option ℚ)
  | finished
deriving Repr, DecidableEq

/-- The `progress_hook` callback (src/bot.py lines 234-244): prefers
total_bytes, falls back to total_bytes_estimate, and leaves the percentage
untouched when neither key is present. -/
def progress_hook : HookEvent → ProgressState → ProgressState
  | .downloading db (some t) _, s => { s with percent := db / t * 100 }
  | .downloading db none (some t), s => { s with percent := db / t * 100 }
  | .downloading _ none none, s => s
  | .finished, s => { s with finished := true }

/-- Folding a stream of progress events through the hook. -/
def runHooks (evs : List HookEvent) (s : ProgressState) : ProgressState :=
  evs.foldl (fun s e => progress_hook e s) s

/-- An event that carries neither total_bytes nor total_bytes_estimate
(or is not a downloading event at all), so it cannot set the percentage. -/
def hasNoTotal : HookEvent → Bool
  | .downloading _ none none => true
  | .downloading _ _ _ => false
  | .finished => true

/-- The reporter coroutine `update_progress` (src/bot.py lines 319-339),
abstracted over the sequence of sampled percentages: starting from
`last_percent = -1`, a sample is emitted exactly when
`percent > 0 and abs(percent - last_percent) > 1`, and an emission resets
`last_percent` to the emitted sample.  The result lists the emitted
percentages in order. -/
def update_progress (lastPercent : ℚ) : List ℚ → List ℚ
  | [] => []
  | percent :: rest =>
    if 0 < percent ∧ 1 < |percent - lastPercent| then
      percent :: update_progress percent rest
    else
      update_progress lastPercent rest

/-- The exceptions distinguished by the except clauses of
`handle_quality_callback` (src/bot.py lines 451-465):
`yt_dlp.utils.DownloadError`, the built-in TimeoutError, and any other
exception. -/
inductive PipelineError where
  | downloadError (msg : String)
  | timeoutError (msg : String)
  | unexpected (msg : String)
deriving Repr, DecidableEq

/-- What the user sees from an except clause: the status message edited to a
text, or nothing (the error is only logged). -/
inductive UserNotice where
  | editMessage (text : String)
  | logOnly
deriving Repr, DecidableEq

/-- Retry-suggesting text shown on a DownloadError (src/bot.py lines 453-456). -/
def resourceUnavailableText : String :=
  "❌ Не удалось загрузить видео. Проверьте правильность ссылки и доступность видео."

/-- Generic apology shown on an unexpected exception (src/bot.py lines 463-465). -/
def unexpectedText : String := "❌ Произошла ошибка. Попробуйте позже."

/-- The except-clause cascade of `handle_quality_callback` (src/bot.py lines
451-465): a DownloadError edits the status message with a retry suggestion, a
TimeoutError is only logged (the upload may still complete server-side), and
any other exception edits the status message with a generic apology. -/
def exceptClauses : PipelineError → UserNotice
  | .downloadError _ => .editMessage resourceUnavailableText
  | .timeoutError _ => .logOnly
  | .unexpected _ => .editMessage unexpectedText

/-! Auxiliary lemmas about the store operations. -/

theorem contains_eq_decide (l : List String) (a : String) :
    l.contains a = decide (a ∈ l) := by
  simp [List.contains]

theorem lookupStore_append_of_none {st : Storage} {fid : String}
    (h : lookupStore st fid = none) (l2 : Storage) :
    lookupStore (st ++ l2) fid = lookupStore l2 fid := by
  induction st with
  | nil => rfl
  | cons e rest ih =>
    obtain ⟨k, m⟩ := e
    by_cases hk : k = fid
    · simp [lookupStore, hk] at h
    · simp only [List.cons_append, lookupStore, if_neg hk] at h ⊢
      exact ih h

theorem lookupStore_mem {st : Storage} {fid : String} {m : FileMeta}
    (h : lookupStore st fid = some m) : (fid, m) ∈ st := by
  induction st with
  | nil => simp [lookupStore] at h
  | cons e rest ih =>
    obtain ⟨k, m'⟩ := e
    by_cases hk : k = fid
    · simp only [lookupStore, if_pos hk] at h
      injection h with h
      subst hk
      subst h
      exact List.mem_cons_self _ _
    · simp only [lookupStore, if_neg hk] at h
      exact List.mem_cons_of_mem _ (ih h)

theorem lookupStore_eq_of_nodup {st : Storage} {fid : String} {m : FileMeta}
    (hnd : (st.map Prod.fst).Nodup) (hmem : (fid, m) ∈ st) :
    lookupStore st fid = some m := by
  induction st with
  | nil => simp at hmem
  | cons e rest ih =>
    obtain ⟨k, m'⟩ := e
    simp only [List.map_cons, List.nodup_cons] at hnd
    rcases List.mem_cons.mp hmem with heq | hrest
    · injection heq with h1 h2
      subst h1
      subst h2
      simp [lookupStore]
    · by_cases hk : k = fid
      · subst hk
        exact absurd (List.mem_map_of_mem Prod.fst hrest) hnd.1
      · simp only [lookupStore, if_neg hk]
        exact ih hnd.2 hrest

theorem lookupStore_filter_not_contains (ids : List String) (st : Storage)
    (fid : String) :
    lookupStore (st.filter (fun e => !(ids.contains e.1))) fid =
      if fid ∈ ids then none else lookupStore st fid := by
  induction st with
  | nil => simp [lookupStore]
  | cons e rest ih =>
    obtain ⟨k, m⟩ := e
    simp only [contains_eq_decide] at ih ⊢
    by_cases hk : k = fid
    · subst hk
      by_cases hq : k ∈ ids
      · simp [List.filter_cons, lookupStore, hq, ih]
      · simp [List.filter_cons, lookupStore, hq, ih]
    · by_cases hq : k ∈ ids
      · simp [List.filter_cons, lookupStore, hk, hq, ih]
      · simp [List.filter_cons, lookupStore, hk, hq, ih]

theorem lookupStore_markDownloaded (st : Storage) (fid : String) :
    lookupStore (markDownloaded st fid) fid =
      Option.map (fun m => { m with downloaded := true }) (lookupStore st fid) := by
  induction st with
  | nil => rfl
  | cons e rest ih =>
    obtain ⟨k, m⟩ := e
    by_cases hk : k = fid
    · subst hk
      simp [markDownloaded, lookupStore]
    · simp only [markDownloaded, if_neg hk, lookupStore]
      exact ih

theorem lookupStore_removeEntry (st : Storage) (fid : String) :
    lookupStore (removeEntry st fid) fid = none := by
  induction st with
  | nil => rfl
  | cons e rest ih =>
    obtain ⟨k, m⟩ := e
    by_cases hk : k = fid
    · subst hk
      simpa [removeEntry, List.filter_cons] using ih
    · have hne : (k != fid) = true := by simpa using hk
      simp only [removeEntry, List.filter_cons, hne, if_pos, lookupStore,
        if_neg hk] at ih ⊢
      exact ih

theorem mem_sweepIds_iff {now : Int} {st : Storage} {fid : String} :
    fid ∈ sweepIds now st ↔ ∃ m, (fid, m) ∈ st ∧ deletable now m = true := by
  simp only [sweepIds, List.mem_map, List.mem_filter]
  constructor
  · rintro ⟨⟨k, m⟩, ⟨hmem, hdel⟩, rfl⟩
    exact ⟨m, hmem, hdel⟩
  · rintro ⟨m, hmem, hdel⟩
    exact ⟨(fid, m), ⟨hmem, hdel⟩, rfl⟩

theorem sweepLoop_noFailing (now : Int) (st : Storage) :
    ∀ (fs : FS) (acc : List String),
      sweepLoop now [] st fs acc = .ok (sweepFs now st fs, acc ++ sweepIds now st) := by
  induction st with
  | nil => intro fs acc; simp [sweepLoop, sweepFs, sweepIds]
  | cons e rest ih =>
    obtain ⟨fid, m⟩ := e
    intro fs acc
    by_cases hdel : deletable now m
    · by_cases hmem : m.path ∈ fs
      · simp [sweepLoop, sweepFs, sweepIds, hdel, hmem, ih, List.filter_cons]
      · simp [sweepLoop, sweepFs, sweepIds, hdel, hmem, ih, List.filter_cons]
    · simp [sweepLoop, sweepFs, sweepIds, hdel, ih, List.filter_cons]

theorem cleanupPass_noFailing (now : Int) (st : Storage) (fs : FS) :
    cleanupPass now [] st fs =
      (st.filter (fun e => !((sweepIds now st).contains e.1)),
       sweepFs now st fs) := by
  have h := sweepLoop_noFailing now st fs []
  rw [List.nil_append] at h
  unfold cleanupPass
  rw [h]

theorem mem_of_mem_sweepFs {now : Int} {x : String} :
    ∀ {st : Storage} {fs : FS}, x ∈ sweepFs now st fs → x ∈ fs := by
  intro st
  induction st with
  | nil => intro fs h; exact h
  | cons e rest ih =>
    obtain ⟨fid, m⟩ := e
    intro fs h
    by_cases hdel : deletable now m
    · by_cases hmem : m.path ∈ fs
      · simp only [sweepFs, if_pos hdel, if_pos hmem] at h
        exact List.mem_of_mem_erase (ih h)
      · simp only [sweepFs, if_pos hdel, if_neg hmem] at h
        exact ih h
    · simp only [sweepFs, if_neg hdel] at h
      exact ih h

theorem not_mem_sweepFs_of_deletable {now : Int} {fid : String} {m : FileMeta} :
    ∀ {st : Storage} {fs : FS}, fs.Nodup → (fid, m) ∈ st →
      deletable now m = true → m.path ∉ sweepFs now st fs := by
  intro st
  induction st with
  | nil => intro fs _ hmem; simp at hmem
  | cons e rest ih =>
    obtain ⟨k, m'⟩ := e
    intro fs hnd hmem hdel
    rcases List.mem_cons.mp hmem with heq | hrest
    · injection heq with h1 h2
      subst h2
      by_cases hfs : m.path ∈ fs
      · simp only [sweepFs, if_pos hdel, if_pos hfs]
        intro hcon
        exact (hnd.not_mem_erase) (mem_of_mem_sweepFs hcon)
      · simp only [sweepFs, if_pos hdel, if_neg hfs]
        intro hcon
        exact hfs (mem_of_mem_sweepFs hcon)
    · by_cases hdel2 : deletable now m'
      · by_cases hfs : m'.path ∈ fs
        · simp only [sweepFs, if_pos hdel2, if_pos hfs]
          exact ih (hnd.erase _) hrest hdel
        · simp only [sweepFs, if_pos hdel2, if_neg hfs]
          exact ih hnd hrest hdel
      · simp only [sweepFs, if_neg hdel2]
        exact ih hnd hrest hdel

theorem sweepFs_eq_of_no_deletable {now : Int} :
    ∀ {st : Storage} (fs : FS), (∀ e ∈ st, deletable now e.2 = false) →
      sweepFs now st fs = fs := by
  intro st
  induction st with
  | nil => intro fs _; rfl
  | cons e rest ih =>
    obtain ⟨k, m⟩ := e
    intro fs hnone
    have hm : deletable now m = false := hnone (k, m) (List.mem_cons_self _ _)
    simp only [sweepFs, hm, Bool.false_eq_true, if_false]
    exact ih fs fun e he => hnone e (List.mem_cons_of_mem _ he)

theorem sweepLoop_ok_processes {now : Int} {failing : List String} :
    ∀ {st : Storage} {fs : FS} {acc fs2 acc2 : List String},
      sweepLoop now failing st fs acc = .ok (fs2, acc2) →
      (∀ p ∈ acc, p ∈ acc2) ∧
      ∀ fid m, (fid, m) ∈ st → deletable now m = true → fid ∈ acc2 := by
  intro st
  induction st with
  | nil =>
    intro fs acc fs2 acc2 h
    simp only [sweepLoop, Except.ok.injEq, Prod.mk.injEq] at h
    refine ⟨fun p hp => ?_, fun fid m hmem => by simp at hmem⟩
    rw [← h.2]
    exact hp
  | cons e rest ih =>
    obtain ⟨k, m'⟩ := e
    intro fs acc fs2 acc2 h
    by_cases hdel : deletable now m'
    · by_cases hfs : m'.path ∈ fs
      · by_cases hfail : m'.path ∈ failing
        · simp [sweepLoop, hdel, hfs, hfail] at h
        · simp only [sweepLoop, if_pos hdel, if_pos hfs, if_pos hfail,
            if_neg hfail] at h
          obtain ⟨hsub, hrest⟩ := ih h
          refine ⟨fun p hp => hsub p (by simp [hp]), ?_⟩
          rintro fid m hmem hdm
          rcases List.mem_cons.mp hmem with heq | hmem2
          · injection heq with h1 h2
            subst h1
            exact hsub fid (by simp)
          · exact hrest fid m hmem2 hdm
      · simp only [sweepLoop, if_pos hdel, if_neg hfs] at h
        obtain ⟨hsub, hrest⟩ := ih h
        refine ⟨fun p hp => hsub p (by simp [hp]), ?_⟩
        rintro fid m hmem hdm
        rcases List.mem_cons.mp hmem with heq | hmem2
        · injection heq with h1 h2
          subst h1
          exact hsub fid (by simp)
        · exact hrest fid m hmem2 hdm
    · simp only [sweepLoop, if_neg hdel] at h
      obtain ⟨hsub, hrest⟩ := ih h
      refine ⟨hsub, ?_⟩
      rintro fid m hmem hdm
      rcases List.mem_cons.mp hmem with heq | hmem2
      · injection heq with h1 h2
        subst h1
        subst h2
        exact absurd hdm (by simpa using hdel)
      · exact hrest fid m hmem2 hdm

theorem download_handler_of_none {st : Storage} {fid : String} (fs : FS)
    (h : lookupStore st fid = none) :
    download_handler st fs fid =
      (HttpResponse.notFound "File not found or expired", st) := by
  simp [download_handler, h]

theorem download_handler_of_some_mem {st : Storage} {fid : String}
    {m : FileMeta} {fs : FS} (h : lookupStore st fid = some m)
    (hp : m.path ∈ fs) :
    download_handler st fs fid =
      (HttpResponse.fileResponse m.path (attachmentHeader m.path),
       markDownloaded st fid) := by
  simp [download_handler, h, hp]

/-! Theorems settling the claims. -/

/-- C1: an artifact of at most the 50 MiB channel limit is sent inline, as audio
for the audio tier and as a streamable video otherwise, and registers no store
entry; an artifact strictly above the limit registers exactly one entry under
the fresh handle, returns the retrieval URL SERVER_URL/download/handle, and
performs no inline send. -/
theorem deliver_size_routing (tier : QualityTier) (name : String)
    (size : Nat) (fid : String) (now : Int) (st : Storage)
    (hfresh : lookupStore st fid = none) :
    (size ≤ MAX_FILE_SIZE →
      (deliver tier name size fid now st).2 = st ∧
      (deliver tier name size fid now st).1 =
        (if tier = QualityTier.audio then DeliveryResult.sentAudio
         else DeliveryResult.sentVideo true)) ∧
    (MAX_FILE_SIZE < size →
      (deliver tier name size fid now st).1 =
        DeliveryResult.offloaded (SERVER_URL ++ "/download/" ++ fid) fid ∧
      (deliver tier name size fid now st).2 =
        st ++ [(fid, ⟨fid ++ "_" ++ name, now, false, name⟩)] ∧
      lookupStore (deliver tier name size fid now st).2 fid =
        some ⟨fid ++ "_" ++ name, now, false, name⟩) := by
  constructor
  · intro hle
    have hnot : ¬ MAX_FILE_SIZE < size := Nat.not_lt.mpr hle
    cases tier <;> simp [deliver, hnot]
  · intro hlt
    refine ⟨by simp [deliver, hlt], by simp [deliver, hlt], ?_⟩
    have h2 : (deliver tier name size fid now st).2 =
        st ++ [(fid, ⟨fid ++ "_" ++ name, now, false, name⟩)] := by
      simp [deliver, hlt]
    rw [h2, lookupStore_append_of_none hfresh]
    simp [lookupStore]

/-- Witness for C1: a 1000-byte artifact is sent inline as a streaming video,
and an artifact one byte over the limit is offloaded to a retrieval URL. -/
theorem deliver_size_routing_witness :
    (deliver QualityTier.sd "v.mp4" 1000 "h1" 0 []).1 =
      DeliveryResult.sentVideo true ∧
    (deliver QualityTier.sd "v.mp4" (MAX_FILE_SIZE + 1) "h1" 0 []).1 =
      DeliveryResult.offloaded (SERVER_URL ++ "/download/" ++ "h1") "h1" := by
  have h1 := deliver_size_routing QualityTier.sd "v.mp4" 1000 "h1" 0 [] rfl
  have h2 :=
    deliver_size_routing QualityTier.sd "v.mp4" (MAX_FILE_SIZE + 1) "h1" 0 [] rfl
  exact ⟨by simpa using (h1.1 (by decide)).2, (h2.2 (Nat.lt_succ_self _)).1⟩

/-- C2 counterexample: two expired entries; the unlink of the first one raises,
and the pass leaves the second entry entirely unprocessed — its metadata stays
in the store and its file stays on disk — refuting per-entry fault tolerance. -/
theorem cleanup_pass_not_fault_tolerant :
    deletable (25 * 3600) ⟨"pb", 0, false, "b.mp4"⟩ = true ∧
    cleanupPass (25 * 3600) ["pa"]
        [("a", ⟨"pa", 0, false, "a.mp4"⟩), ("b", ⟨"pb", 0, false, "b.mp4"⟩)]
        ["pa", "pb"] =
      ([("a", ⟨"pa", 0, false, "a.mp4"⟩), ("b", ⟨"pb", 0, false, "b.mp4"⟩)],
       ["pa", "pb"]) := by
  constructor
  · decide
  · rfl

/-- C2 amended: one entry's failing unlink aborts the remainder of that pass —
the exception is caught outside the loop, so the pass returns normally with the
metadata dictionary unchanged and deletion left to the next hourly pass — while
a pass in which no unlink fails removes every retrieved-or-expired entry. -/
theorem cleanup_pass_failure_containment (now : Int) (failing : List String)
    (st : Storage) (fs : FS) :
    (∀ fs2, sweepLoop now failing st fs [] = Except.error fs2 →
      cleanupPass now failing st fs = (st, fs2)) ∧
    (∀ fs2 ids, sweepLoop now failing st fs [] = Except.ok (fs2, ids) →
      ∀ fid m, lookupStore st fid = some m → deletable now m = true →
        lookupStore (cleanupPass now failing st fs).1 fid = none) := by
  constructor
  · intro fs2 herr
    simp [cleanupPass, herr]
  · intro fs2 ids hok fid m hm hdel
    have hfid : fid ∈ ids :=
      (sweepLoop_ok_processes hok).2 fid m (lookupStore_mem hm) hdel
    have hpass : cleanupPass now failing st fs =
        (st.filter (fun e => !(ids.contains e.1)), fs2) := by
      simp [cleanupPass, hok]
    rw [hpass]
    simp only
    rw [lookupStore_filter_not_contains]
    simp [hfid]

/-- Witness for C2 amended: a clean pass over one retrieved entry removes it. -/
theorem cleanup_pass_failure_containment_witness :
    lookupStore (cleanupPass (25 * 3600) []
        [("c", ⟨"pc", 0, true, "c.mp4"⟩)] ["pc"]).1 "c" = none :=
  (cleanup_pass_failure_containment (25 * 3600) []
      [("c", ⟨"pc", 0, true, "c.mp4"⟩)] ["pc"]).2
    [] ["c"] (by rfl) "c" ⟨"pc", 0, true, "c.mp4"⟩ (by rfl) (by rfl)

/-- C3 counterexample: serving handle h1 registered with original name
video.mp4 and stored basename h1_video.mp4: the Content-Disposition carries
the stored basename, uuid prefix included, not the recorded original name. -/
theorem download_handler_filename_not_original :
    (download_handler [("h1", ⟨"h1_video.mp4", 0, false, "video.mp4"⟩)]
        ["h1_video.mp4"] "h1").1 =
      HttpResponse.fileResponse "h1_video.mp4"
        "attachment; filename=\"h1_video.mp4\"" ∧
    "attachment; filename=\"h1_video.mp4\"" ≠
      "attachment; filename=\"video.mp4\"" := by
  constructor
  · rfl
  · decide

/-- C3 amended: a handle absent from the store gets 404 with body File not
found or expired; a present handle with an existing backing file gets the file
with a Content-Disposition naming the stored basename (handle-prefixed), not
the original name; a present handle whose file is missing gets 404 with body
File not found and its stale entry is removed. -/
theorem download_handler_spec (st : Storage) (fs : FS) (fid : String) :
    (lookupStore st fid = none →
      download_handler st fs fid =
        (HttpResponse.notFound "File not found or expired", st)) ∧
    (∀ m, lookupStore st fid = some m → m.path ∈ fs →
      (download_handler st fs fid).1 =
        HttpResponse.fileResponse m.path
          ("attachment; filename=\"" ++ m.path ++ "\"")) ∧
    (∀ m, lookupStore st fid = some m → m.path ∉ fs →
      (download_handler st fs fid).1 = HttpResponse.notFound "File not found" ∧
      lookupStore (download_handler st fs fid).2 fid = none) := by
  refine ⟨fun h => by simp [download_handler, h],
    fun m hm hmem => by simp [download_handler, attachmentHeader, hm, hmem],
    fun m hm hmem => ⟨by simp [download_handler, hm, hmem], ?_⟩⟩
  simp [download_handler, hm, hmem, lookupStore_removeEntry]

/-- Witness for C3 amended, at the stale-entry case: present handle, missing
file, so 404 File not found and the entry disappears. -/
theorem download_handler_spec_witness :
    (download_handler [("h2", ⟨"h2_a.mp4", 0, false, "a.mp4"⟩)] [] "h2").1 =
      HttpResponse.notFound "File not found" ∧
    lookupStore
      (download_handler [("h2", ⟨"h2_a.mp4", 0, false, "a.mp4"⟩)] [] "h2").2
      "h2" = none :=
  (download_handler_spec [("h2", ⟨"h2_a.mp4", 0, false, "a.mp4"⟩)] [] "h2").2.2
    ⟨"h2_a.mp4", 0, false, "a.mp4"⟩ rfl (by decide)

/-- C4 counterexample: with post-processing unavailable, the HD preference
list still contains the separate video+audio merge entry, refuting the claim
that this entry is offered only when FFmpeg is available. -/
theorem selectFormats_merge_always_offered :
    "bestvideo[ext=mp4][height<=1080]+bestaudio[ext=m4a]" ∈
      selectFormats QualityTier.hd false := by decide

/-- C4 amended: every tier yields a non-empty preference list that does not
depend on FFmpeg availability at all; the HD list starts at the combined MP4
stream capped at 1080p, always contains the separate video+audio merge
fallback, and ends at the unconstrained best-effort fallback; the SD list
starts at the combined MP4 stream capped at 480p and ends at the
worst-available fallback. -/
theorem selectFormats_spec (tier : QualityTier) (b : Bool) :
    selectFormats tier b ≠ [] ∧
    selectFormats tier b = selectFormats tier true ∧
    (selectFormats QualityTier.hd b).head? =
      some "best[ext=mp4][height<=1080]" ∧
    "bestvideo[ext=mp4][height<=1080]+bestaudio[ext=m4a]" ∈
      selectFormats QualityTier.hd b ∧
    (selectFormats QualityTier.hd b).getLast? = some "best" ∧
    (selectFormats QualityTier.sd b).head? =
      some "best[ext=mp4][height<=480]" ∧
    (selectFormats QualityTier.sd b).getLast? = some "worst" := by
  cases tier <;> cases b <;> decide

/-- C9: a TimeoutError raised during the final upload is only logged and the
status message is never edited to a failure, while a DownloadError produces
the user-facing retry-suggesting message. -/
theorem upload_timeout_not_surfaced (msg : String) :
    exceptClauses (PipelineError.timeoutError msg) = UserNotice.logOnly ∧
    exceptClauses (PipelineError.downloadError msg) =
      UserNotice.editMessage resourceUnavailableText :=
  ⟨rfl, rfl⟩

theorem update_progress_emission_chain (last : ℚ) (samples : List ℚ) :
    List.Chain (fun a b => 1 < |b - a|) last (update_progress last samples) ∧
    ∀ q ∈ update_progress last samples, 0 < q := by
  induction samples generalizing last with
  | nil => exact ⟨List.Chain.nil, by simp [update_progress]⟩
  | cons p rest ih =>
    by_cases hc : 0 < p ∧ 1 < |p - last|
    · simp only [update_progress, if_pos hc]
      refine ⟨List.Chain.cons hc.2 (ih p).1, ?_⟩
      intro q hq
      rcases List.mem_cons.mp hq with rfl | hq2
      · exact hc.1
      · exact (ih p).2 q hq2
    · simp only [update_progress, if_neg hc]
      exact ih last

theorem runHooks_percent_of_noTotal :
    ∀ (l : List HookEvent) (s : ProgressState),
      (∀ ev ∈ l, hasNoTotal ev = true) → (runHooks l s).percent = s.percent := by
  intro l
  induction l with
  | nil => intro s _; rfl
  | cons e rest ih =>
    intro s hall
    have he := hall e (List.mem_cons_self _ _)
    have hstep : (progress_hook e s).percent = s.percent := by
      cases e with
      | downloading db t est =>
        cases t with
        | none =>
          cases est with
          | none => rfl
          | some x => simp [hasNoTotal] at he
        | some x => simp [hasNoTotal] at he
      | finished => rfl
    have hfold : runHooks (e :: rest) s = runHooks rest (progress_hook e s) := by
      simp [runHooks]
    rw [hfold, ih _ fun ev hev => hall ev (List.mem_cons_of_mem _ hev), hstep]

/-- C5 counterexample: after an emission at 50 percent, a noisy sample at 48
percent has not advanced since the last emission, yet the reporter emits
again, because the source compares the absolute change. -/
theorem update_progress_emits_on_decrease :
    update_progress (-1) [50, 48] = [50, 48] ∧ ¬((48 : ℚ) - 50 > 1) := by
  constructor
  · norm_num [update_progress]
  · norm_num

/-- C5 amended: every emission of the reporter is a positive percentage that
differs from the previous emission (initially -1) by strictly more than one
point in absolute value — so the reporter also emits on a decrease of more
than one point, not only on an advance — and when no progress event ever
carries a total or an estimated total, the percentage stays at its initial 0,
for which no emission ever happens. -/
theorem update_progress_spec (samples : List ℚ) (evs : List HookEvent) :
    (List.Chain (fun a b => 1 < |b - a|) (-1) (update_progress (-1) samples) ∧
      ∀ q ∈ update_progress (-1) samples, 0 < q) ∧
    ((∀ ev ∈ evs, hasNoTotal ev = true) →
      (runHooks evs initialProgress).percent = 0) :=
  ⟨update_progress_emission_chain (-1) samples,
   fun h => runHooks_percent_of_noTotal evs initialProgress h⟩

/-- Witness for C5 at a concrete sample list and a concrete total-less event
stream. -/
theorem update_progress_spec_witness :
    (List.Chain (fun a b => 1 < |b - a|) (-1) (update_progress (-1) [50, 30]) ∧
      ∀ q ∈ update_progress (-1) [50, 30], 0 < q) ∧
    (runHooks [HookEvent.downloading 5 none none] initialProgress).percent = 0 :=
  ⟨(update_progress_spec [50, 30] [HookEvent.downloading 5 none none]).1,
   (update_progress_spec [50, 30] [HookEvent.downloading 5 none none]).2
     (by intro ev hev; rcases List.mem_singleton.mp hev with rfl; rfl)⟩

/-- C6: on a handle whose entry has an existing backing file, the first
retrieval serves the file and flips the downloaded flag to true; a sweep pass
run afterwards (at any time) removes the entry, and a second retrieval then
answers 404 File not found or expired. -/
theorem retrieve_then_sweep_then_404 (st : Storage) (fs : FS) (fid : String)
    (m : FileMeta) (now : Int)
    (hm : lookupStore st fid = some m) (hfile : m.path ∈ fs) :
    (download_handler st fs fid).1 =
      HttpResponse.fileResponse m.path (attachmentHeader m.path) ∧
    lookupStore (download_handler st fs fid).2 fid =
      some { m with downloaded := true } ∧
    lookupStore (cleanupPass now [] (download_handler st fs fid).2 fs).1 fid =
      none ∧
    (download_handler (cleanupPass now [] (download_handler st fs fid).2 fs).1
        (cleanupPass now [] (download_handler st fs fid).2 fs).2 fid).1 =
      HttpResponse.notFound "File not found or expired" := by
  have hd2 : (download_handler st fs fid).2 = markDownloaded st fid := by
    simp [download_handler, hm, hfile]
  have hresp : (download_handler st fs fid).1 =
      HttpResponse.fileResponse m.path (attachmentHeader m.path) := by
    simp [download_handler, hm, hfile]
  have hlk2 : lookupStore (download_handler st fs fid).2 fid =
      some { m with downloaded := true } := by
    rw [hd2, lookupStore_markDownloaded, hm]
    rfl
  have hdel : deletable now { m with downloaded := true } = true := by
    simp [deletable]
  have hids : fid ∈ sweepIds now (download_handler st fs fid).2 :=
    mem_sweepIds_iff.mpr ⟨_, lookupStore_mem hlk2, hdel⟩
  have hclean :
      lookupStore (cleanupPass now [] (download_handler st fs fid).2 fs).1 fid =
        none := by
    rw [cleanupPass_noFailing]
    simp only
    rw [lookupStore_filter_not_contains]
    simp [hids]
  refine ⟨hresp, hlk2, hclean, ?_⟩
  rw [download_handler_of_none _ hclean]

/-- Witness for C6 at a concrete one-entry store. -/
theorem retrieve_then_sweep_then_404_witness :
    (download_handler [("h3", ⟨"h3_c.mp4", 5, false, "c.mp4"⟩)]
        ["h3_c.mp4"] "h3").1 =
      HttpResponse.fileResponse "h3_c.mp4" (attachmentHeader "h3_c.mp4") ∧
    lookupStore
      (download_handler [("h3", ⟨"h3_c.mp4", 5, false, "c.mp4"⟩)]
        ["h3_c.mp4"] "h3").2 "h3" = some ⟨"h3_c.mp4", 5, true, "c.mp4"⟩ ∧
    lookupStore (cleanupPass 10 []
      (download_handler [("h3", ⟨"h3_c.mp4", 5, false, "c.mp4"⟩)]
        ["h3_c.mp4"] "h3").2 ["h3_c.mp4"]).1 "h3" = none ∧
    (download_handler (cleanupPass 10 []
        (download_handler [("h3", ⟨"h3_c.mp4", 5, false, "c.mp4"⟩)]
          ["h3_c.mp4"] "h3").2 ["h3_c.mp4"]).1
      (cleanupPass 10 []
        (download_handler [("h3", ⟨"h3_c.mp4", 5, false, "c.mp4"⟩)]
          ["h3_c.mp4"] "h3").2 ["h3_c.mp4"]).2 "h3").1 =
      HttpResponse.notFound "File not found or expired" :=
  retrieve_then_sweep_then_404 [("h3", ⟨"h3_c.mp4", 5, false, "c.mp4"⟩)]
    ["h3_c.mp4"] "h3" ⟨"h3_c.mp4", 5, false, "c.mp4"⟩ 10 (by rfl) (by decide)

/-- C7: an unretrieved entry is removed, together with its backing file, by a
sweep running strictly more than 24 hours after its creation, and is kept
unchanged by a sweep running at or before the 24-hour mark — no sweep removes
an unretrieved in-window entry. -/
theorem sweep_expiry (st : Storage) (fs : FS) (fid : String) (m : FileMeta)
    (now : Int) (hnd : (st.map Prod.fst).Nodup) (hfs : fs.Nodup)
    (hm : lookupStore st fid = some m) (hret : m.downloaded = false) :
    (24 * 3600 < now - m.createdAt →
      lookupStore (cleanupPass now [] st fs).1 fid = none ∧
      m.path ∉ (cleanupPass now [] st fs).2) ∧
    (now - m.createdAt ≤ 24 * 3600 →
      lookupStore (cleanupPass now [] st fs).1 fid = some m) := by
  have hmem := lookupStore_mem hm
  constructor
  · intro hage
    have hdel : deletable now m = true := by
      simp only [deletable, Bool.or_eq_true, decide_eq_true_eq]
      exact Or.inl hage
    constructor
    · have hids : fid ∈ sweepIds now st := mem_sweepIds_iff.mpr ⟨m, hmem, hdel⟩
      rw [cleanupPass_noFailing]
      simp only
      rw [lookupStore_filter_not_contains]
      simp [hids]
    · rw [cleanupPass_noFailing]
      simp only
      exact not_mem_sweepFs_of_deletable hfs hmem hdel
  · intro hage
    have hnotage : ¬ (24 * 3600 < now - m.createdAt) := not_lt.mpr hage
    have hdel : deletable now m = false := by
      simp only [deletable, hret, Bool.or_false, decide_eq_false_iff_not]
      exact hnotage
    have hids : fid ∉ sweepIds now st := by
      intro hin
      obtain ⟨m2, hmem2, hdel2⟩ := mem_sweepIds_iff.mp hin
      have heq : lookupStore st fid = some m2 := lookupStore_eq_of_nodup hnd hmem2
      rw [hm] at heq
      injection heq with heq
      subst heq
      rw [hdel] at hdel2
      exact Bool.false_ne_true hdel2
    rw [cleanupPass_noFailing]
    simp only
    rw [lookupStore_filter_not_contains]
    simp [hids, hm]

/-- Witness for C7: a sweep at exactly the 24-hour mark keeps the entry. -/
theorem sweep_expiry_witness :
    lookupStore (cleanupPass (24 * 3600) []
        [("h4", ⟨"h4_d.mp4", 0, false, "d.mp4"⟩)] ["h4_d.mp4"]).1 "h4" =
      some ⟨"h4_d.mp4", 0, false, "d.mp4"⟩ :=
  (sweep_expiry [("h4", ⟨"h4_d.mp4", 0, false, "d.mp4"⟩)] ["h4_d.mp4"] "h4"
      ⟨"h4_d.mp4", 0, false, "d.mp4"⟩ (24 * 3600)
      (by decide) (by decide) (by rfl) (by rfl)).2 (by decide)

/-- C8: running the sweep twice at the same instant, with no registration or
retrieval in between, leaves the state of the first pass unchanged: the second
pass deletes nothing and raises no error (there is no deletable entry left,
and a file already gone is never unlinked because of the existence guard). -/
theorem sweep_idempotent (now : Int) (st : Storage) (fs : FS) :
    cleanupPass now [] (cleanupPass now [] st fs).1
        (cleanupPass now [] st fs).2 =
      cleanupPass now [] st fs := by
  rw [cleanupPass_noFailing now st fs]
  simp only
  have hnone : ∀ e ∈ st.filter (fun e => !((sweepIds now st).contains e.1)),
      deletable now e.2 = false := by
    intro e he
    obtain ⟨hmem, hkeep⟩ := List.mem_filter.mp he
    cases hde : deletable now e.2 with
    | false => rfl
    | true =>
      exfalso
      have hin : e.1 ∈ sweepIds now st := mem_sweepIds_iff.mpr ⟨e.2, hmem, hde⟩
      simp [contains_eq_decide, hin] at hkeep
  have hids : sweepIds now (st.filter (fun e => !((sweepIds now st).contains e.1))) = [] := by
    simp only [sweepIds, List.map_eq_nil_iff, List.filter_eq_nil_iff]
    intro e he
    simp [hnone e he]
  rw [cleanupPass_noFailing, hids,
    sweepFs_eq_of_no_deletable _ hnone]
  simp

theorem retrieveN_of_downloaded (fs : FS) (fid : String) :
    ∀ (n : Nat) (st : Storage) (m : FileMeta),
      lookupStore st fid = some m → m.downloaded = true → m.path ∈ fs →
      lookupStore (retrieveN fs fid n st) fid = some m := by
  intro n
  induction n with
  | zero => intro st m hm _ _; exact hm
  | succ k ih =>
    intro st m hm hdl hp
    have hmark : { m with downloaded := true } = m := by
      obtain ⟨p, c, d, o⟩ := m
      cases hdl
      rfl
    have hd2 : (download_handler st fs fid).2 = markDownloaded st fid := by
      simp [download_handler, hm, hp]
    have hm2 : lookupStore (download_handler st fs fid).2 fid = some m := by
      rw [hd2, lookupStore_markDownloaded, hm]
      simp [hmark]
    simp only [retrieveN]
    exact ih _ m hm2 hdl hp

/-- C10: a successful retrieval never removes the entry or the file: after any
number of successful retrievals of a handle, with no sweep in between, the
entry is still present (downloaded flag set from the first retrieval on) and
the next retrieval still serves the file; reclamation is left to the sweep. -/
theorem retrieval_never_reclaims (st : Storage) (fs : FS) (fid : String)
    (m : FileMeta) (hm : lookupStore st fid = some m) (hp : m.path ∈ fs) :
    ∀ n : Nat,
      lookupStore (retrieveN fs fid n st) fid =
        some (if n = 0 then m else { m with downloaded := true }) ∧
      (download_handler (retrieveN fs fid n st) fs fid).1 =
        HttpResponse.fileResponse m.path (attachmentHeader m.path) := by
  intro n
  cases n with
  | zero =>
    refine ⟨by simpa [retrieveN] using hm, ?_⟩
    have h0 : retrieveN fs fid 0 st = st := rfl
    rw [h0, download_handler_of_some_mem hm hp]
  | succ k =>
    have hd2 : (download_handler st fs fid).2 = markDownloaded st fid := by
      simp [download_handler, hm, hp]
    have hm2 : lookupStore (download_handler st fs fid).2 fid =
        some { m with downloaded := true } := by
      rw [hd2, lookupStore_markDownloaded, hm]
      rfl
    have hall := retrieveN_of_downloaded fs fid k (download_handler st fs fid).2
      { m with downloaded := true } hm2 rfl hp
    constructor
    · simpa [retrieveN] using hall
    · have hstep : retrieveN fs fid (k + 1) st =
          retrieveN fs fid k (download_handler st fs fid).2 := rfl
      rw [hstep, download_handler_of_some_mem hall hp]

/-- Witness for C10: two retrievals of the same handle both succeed and the
entry survives with the downloaded flag set. -/
theorem retrieval_never_reclaims_witness :
    lookupStore (retrieveN ["h5_e.mp4"] "h5" 2
        [("h5", ⟨"h5_e.mp4", 0, false, "e.mp4"⟩)]) "h5" =
      some (if 2 = 0 then (⟨"h5_e.mp4", 0, false, "e.mp4"⟩ : FileMeta)
            else ⟨"h5_e.mp4", 0, true, "e.mp4"⟩) ∧
    (download_handler (retrieveN ["h5_e.mp4"] "h5" 2
        [("h5", ⟨"h5_e.mp4", 0, false, "e.mp4"⟩)]) ["h5_e.mp4"] "h5").1 =
      HttpResponse.fileResponse "h5_e.mp4" (attachmentHeader "h5_e.mp4") :=
  retrieval_never_reclaims [("h5", ⟨"h5_e.mp4", 0, false, "e.mp4"⟩)]
    ["h5_e.mp4"] "h5" ⟨"h5_e.mp4", 0, false, "e.mp4"⟩ (by rfl) (by decide) 2

end YtdlBot
